import Mathlib

/-!
Verification of `crates/xetex_format/src/gluepars.rs`: the versioned glue
parameter registry and the two C-header emission routines of the Tectonic
xetex_format crate. Definitions are a shallow embedding of the Rust source;
theorems settle the specified properties against it.
-/

set_option maxRecDepth 4000

/-- Modelled from the spec: `FormatVersion` (declared outside this file, in
the crate root) is a non-negative integer format-version number, compared
with ordinary numeric comparison. -/
abbrev FormatVersion := Nat

/-- Different kinds of glue parameters (`enum GlueParKind`). -/
inductive GlueParKind where
  /-- A regular glue parameter. -/
  | Regular : GlueParKind
  /-- A math glue parameter. -/
  | Math : GlueParKind
deriving DecidableEq

/-- Information about glue parameters (`struct GluePar`). -/
structure GluePar where
  /-- The name of the parameter. -/
  name : String
  /-- The kind of the parameter. -/
  kind : GlueParKind
  /-- The first format version in which the parameter was introduced. -/
  since : FormatVersion
deriving DecidableEq

/-- The registry constant `GLUE_PARS`, transcribed entry by entry from the
Rust source in declaration order. -/
def GLUE_PARS : List GluePar := [
  { name := "line_skip", kind := GlueParKind.Regular, since := 0 },
  { name := "baseline_skip", kind := GlueParKind.Regular, since := 0 },
  { name := "par_skip", kind := GlueParKind.Regular, since := 0 },
  { name := "above_display_skip", kind := GlueParKind.Regular, since := 0 },
  { name := "below_display_skip", kind := GlueParKind.Regular, since := 0 },
  { name := "above_display_short_skip", kind := GlueParKind.Regular, since := 0 },
  { name := "below_display_short_skip", kind := GlueParKind.Regular, since := 0 },
  { name := "left_skip", kind := GlueParKind.Regular, since := 0 },
  { name := "right_skip", kind := GlueParKind.Regular, since := 0 },
  { name := "top_skip", kind := GlueParKind.Regular, since := 0 },
  { name := "split_top_skip", kind := GlueParKind.Regular, since := 0 },
  { name := "tab_skip", kind := GlueParKind.Regular, since := 0 },
  { name := "space_skip", kind := GlueParKind.Regular, since := 0 },
  { name := "xspace_skip", kind := GlueParKind.Regular, since := 0 },
  { name := "par_fill_skip", kind := GlueParKind.Regular, since := 0 },
  { name := "XeTeX_linebreak_skip", kind := GlueParKind.Regular, since := 0 },
  { name := "thin_mu_skip", kind := GlueParKind.Math, since := 0 },
  { name := "med_mu_skip", kind := GlueParKind.Math, since := 0 },
  { name := "thick_mu_skip", kind := GlueParKind.Math, since := 0 }]

/-- `get_latest_gluepars`: the full registry, unfiltered. -/
def get_latest_gluepars : List GluePar := GLUE_PARS

/-- `get_gluepars_for_version`: the Rust loop pushes each registry entry `p`
with `version >= p.since` onto an initially empty vector, in registry order. -/
def get_gluepars_for_version (version : FormatVersion) : List GluePar :=
  GLUE_PARS.foldl (fun r p => if version ≥ p.since then r ++ [p] else r) []

/-- Rust's `str::to_lowercase` as used on the parameter names. All registry
names are ASCII, and on ASCII text Unicode lowercasing is exactly
per-character ASCII case folding, which is `Char.toLower`. -/
def rust_to_lowercase (s : String) : String :=
  String.mk (s.data.map Char.toLower)

/-- Rust's `name.replace("_", "")`: replacing every underscore by the empty
string, i.e. deleting every underscore character. -/
def rust_strip_underscores (s : String) : String :=
  String.mk (s.data.filter (fun c => c != '_'))

/-- The classification-to-tag mapping of `emit_c_header_primitives`: the
two-armed `match par.kind` selecting the command tag. -/
def gluepar_cmd : GlueParKind → String
  | GlueParKind.Regular => "ASSIGN_GLUE"
  | GlueParKind.Math => "ASSIGN_MU_GLUE"

/-- The body loop of `emit_c_header_stanza`: one `writeln!` per parameter,
`index` starting at the given value and incremented per entry, each write
being `#define GLUE_PAR__<lowercased name> <index>` plus the newline that
`writeln!` appends. -/
def stanza_body_writes : Nat → List GluePar → List String
  | _, [] => []
  | index, par :: rest =>
      ("#define GLUE_PAR__" ++ rust_to_lowercase par.name ++ " " ++ toString index ++ "\n")
        :: stanza_body_writes (index + 1) rest

/-- The sequence of strings `emit_c_header_stanza` passes to the sink: the
comment write (its format string ends in `\n`, and `writeln!` adds one more),
then one write per parameter, then the count write (again with an extra
`\n` in the format string). -/
def emit_c_header_stanza_writes (pars : List GluePar) : List String :=
  ("/* Glue (\x22skip\x22) parameters */\n" ++ "\n")
    :: (stanza_body_writes 0 pars
        ++ ["#define GLUE_PARS " ++ toString pars.length ++ "\n" ++ "\n"])

/-- One initializer record of `emit_c_header_primitives` for one parameter:
`    { "<name without underscores>", <cmd>, GLUE_BASE + GLUE_PAR__<lowercased
name>, xf_prim_init_none }, \` plus the `writeln!` newline. -/
def primitives_line (par : GluePar) : String :=
  "    \x7b \x22" ++ rust_strip_underscores par.name ++ "\x22, "
    ++ gluepar_cmd par.kind
    ++ ", GLUE_BASE + GLUE_PAR__" ++ rust_to_lowercase par.name
    ++ ", xf_prim_init_none \x7d, \\" ++ "\n"

/-- The sequence of strings `emit_c_header_primitives` passes to the sink:
one `writeln!` per parameter, in input order. -/
def emit_c_header_primitives_writes : List GluePar → List String
  | [] => []
  | par :: rest => primitives_line par :: emit_c_header_primitives_writes rest

/-- Concatenation of a sequence of sink writes into the text the sink
receives. -/
def concat_writes : List String → String
  | [] => ""
  | w :: rest => w ++ concat_writes rest

/-- The full text `emit_c_header_stanza` writes when every write succeeds. -/
def emit_c_header_stanza_output (pars : List GluePar) : String :=
  concat_writes (emit_c_header_stanza_writes pars)

/-- The full text `emit_c_header_primitives` writes when every write
succeeds. -/
def emit_c_header_primitives_output (pars : List GluePar) : String :=
  concat_writes (emit_c_header_primitives_writes pars)

/-- A model of the caller-supplied `W: Write` sink: `accepts i` says whether
the `i`-th write call succeeds, and `err i` is the `std::io::Error` value the
sink reports when the `i`-th write fails. -/
structure Sink (ε : Type) where
  /-- Whether the i-th write call succeeds. -/
  accepts : Nat → Bool
  /-- The error value the sink reports when the i-th write fails. -/
  err : Nat → ε

/-- Run a sequence of writes against a sink, starting at write index `start`.
Returns the text actually written plus the result: `ok` when every write
succeeds, or the sink's own error from the first failing write, propagated
unchanged; the `?` operator makes the Rust functions return at the first
failure, so no later write happens, and the text already written stays. -/
def runWrites {ε : Type} (sink : Sink ε) : Nat → List String → String × Except ε Unit
  | _, [] => ("", Except.ok ())
  | i, w :: rest =>
      if sink.accepts i then
        let next := runWrites sink (i + 1) rest
        (w ++ next.1, next.2)
      else
        ("", Except.error (sink.err i))

/-- `emit_c_header_stanza` run against a fallible sink. -/
def emit_c_header_stanza_run (ε : Type) (pars : List GluePar) (sink : Sink ε) :
    String × Except ε Unit :=
  runWrites sink 0 (emit_c_header_stanza_writes pars)

/-- `emit_c_header_primitives` run against a fallible sink. -/
def emit_c_header_primitives_run (ε : Type) (pars : List GluePar) (sink : Sink ε) :
    String × Except ε Unit :=
  runWrites sink 0 (emit_c_header_primitives_writes pars)

/-- The maximum `since` value present in the registry. -/
def max_known_since : Nat :=
  (GLUE_PARS.map (fun p => p.since)).foldr Nat.max 0

/-- The push-loop of `get_gluepars_for_version` computes a filter of the
registry suffix it still has to traverse, appended to the accumulator. -/
lemma gluepars_foldl_eq_filter (v : Nat) :
    ∀ (l acc : List GluePar),
      l.foldl (fun r p => if v ≥ p.since then r ++ [p] else r) acc
        = acc ++ l.filter (fun p => decide (p.since ≤ v)) := by
  intro l
  induction l with
  | nil => intro acc; simp
  | cons p t ih =>
      intro acc
      by_cases h : p.since ≤ v
      · simp [List.foldl, List.filter_cons, ge_iff_le, h, ih]
      · simp [List.foldl, List.filter_cons, ge_iff_le, h, ih]

/-- `get_gluepars_for_version` is the in-order filter of the registry by
`since ≤ version`. -/
lemma get_for_version_eq_filter (v : Nat) :
    get_gluepars_for_version v = GLUE_PARS.filter (fun p => decide (p.since ≤ v)) := by
  simpa using gluepars_foldl_eq_filter v GLUE_PARS []

/-- Every entry in the current registry carries `since = 0`. -/
lemma glue_pars_since_eq_zero : ∀ p ∈ GLUE_PARS, p.since = 0 := by decide

/-- Because every registry entry has `since = 0`, every version retrieves the
whole registry. -/
lemma get_for_version_eq_all (v : Nat) : get_gluepars_for_version v = GLUE_PARS := by
  rw [get_for_version_eq_filter]
  refine List.filter_eq_self.mpr ?_
  intro p hp
  simp [glue_pars_since_eq_zero p hp]

/-- Concatenating the writes of two runs concatenates the texts. -/
lemma concat_writes_append (a b : List String) :
    concat_writes (a ++ b) = concat_writes a ++ concat_writes b := by
  induction a with
  | nil =>
      apply String.ext
      simp [concat_writes]
  | cons w t ih =>
      apply String.ext
      simp [concat_writes, ih, String.data_append]

/-- The stanza body emits exactly one write per parameter. -/
lemma stanza_body_writes_length : ∀ (start : Nat) (pars : List GluePar),
    (stanza_body_writes start pars).length = pars.length := by
  intro start pars
  induction pars generalizing start with
  | nil => simp [stanza_body_writes]
  | cons p t ih => simp [stanza_body_writes, ih]

/-- The `i`-th write of the stanza body, started at index `start`, is the
define line of the `i`-th parameter carrying number `start + i`. -/
lemma stanza_body_writes_getElem :
    ∀ (pars : List GluePar) (start i : Nat) (h : i < pars.length),
      (stanza_body_writes start pars)[i]?
        = some ("#define GLUE_PAR__" ++ rust_to_lowercase (pars.get ⟨i, h⟩).name
                  ++ " " ++ toString (start + i) ++ "\n") := by
  intro pars
  induction pars with
  | nil => intro start i h; exact absurd h (by simp)
  | cons p t ih =>
      intro start i h
      match i with
      | 0 => simp [stanza_body_writes]
      | Nat.succ k =>
          have hk : k < t.length := Nat.lt_of_succ_lt_succ h
          have := ih (start + 1) k hk
          simp only [stanza_body_writes, List.getElem?_cons_succ, this, List.get]
          have harith : start + 1 + k = start + (k + 1) := by omega
          rw [harith]

/-- When the sink accepts every write of the sequence, the run writes the
whole concatenation and succeeds. -/
lemma runWrites_all_ok {ε : Type} (sink : Sink ε) :
    ∀ (ws : List String) (start : Nat),
      (∀ j, j < ws.length → sink.accepts (start + j) = true) →
      runWrites sink start ws = (concat_writes ws, Except.ok ()) := by
  intro ws
  induction ws with
  | nil => intro start h; simp [runWrites, concat_writes]
  | cons w t ih =>
      intro start h
      have h0 : sink.accepts start = true := by simpa using h 0 (by simp)
      have ht : ∀ j, j < t.length → sink.accepts (start + 1 + j) = true := by
        intro j hj
        have := h (j + 1) (by simpa using Nat.succ_lt_succ hj)
        simpa [Nat.add_assoc, Nat.add_comm 1 j] using this
      simp [runWrites, h0, ih (start + 1) ht, concat_writes]

/-- When the sink accepts the first `i` writes and rejects the `i`-th, the
run stops there: the text written is exactly the first `i` writes, and the
result is the sink's own error for that write, unchanged. -/
lemma runWrites_first_err {ε : Type} (sink : Sink ε) :
    ∀ (ws : List String) (start i : Nat),
      i < ws.length →
      (∀ j, j < i → sink.accepts (start + j) = true) →
      sink.accepts (start + i) = false →
      runWrites sink start ws
        = (concat_writes (ws.take i), Except.error (sink.err (start + i))) := by
  intro ws
  induction ws with
  | nil => intro start i h; exact absurd h (by simp)
  | cons w t ih =>
      intro start i hlen hpre hfail
      match i with
      | 0 =>
          have : sink.accepts start = false := by simpa using hfail
          simp [runWrites, this, concat_writes]
      | Nat.succ k =>
          have h0 : sink.accepts start = true := by simpa using hpre 0 (Nat.succ_pos k)
          have hk : k < t.length := Nat.lt_of_succ_lt_succ hlen
          have hpre2 : ∀ j, j < k → sink.accepts (start + 1 + j) = true := by
            intro j hj
            have := hpre (j + 1) (Nat.succ_lt_succ hj)
            simpa [Nat.add_assoc, Nat.add_comm 1 j] using this
          have hfail2 : sink.accepts (start + 1 + k) = false := by
            have harith : start + 1 + k = start + (k + 1) := by omega
            rw [harith]; exact hfail
          have harith : start + 1 + k = start + (k + 1) := by omega
          simp [runWrites, h0, ih (start + 1) k hk hpre2 hfail2, concat_writes,
            List.take_succ_cons, harith]

/-- Every write of the stanza body is a `#define GLUE_PAR__` line. -/
lemma stanza_body_writes_shape :
    ∀ (pars : List GluePar) (start : Nat) (w : String),
      w ∈ stanza_body_writes start pars → ∃ rest, w = "#define GLUE_PAR__" ++ rest := by
  intro pars
  induction pars with
  | nil => intro start w hw; simp [stanza_body_writes] at hw
  | cons p t ih =>
      intro start w hw
      simp only [stanza_body_writes, List.mem_cons] at hw
      cases hw with
      | inl h =>
          exact ⟨rust_to_lowercase p.name ++ " " ++ toString start ++ "\n",
            by simp [h, String.append_assoc]⟩
      | inr h => exact ih (start + 1) w h

/-- Claim C1: for every input sequence of parameters, `emit_c_header_stanza`
emits one `#define GLUE_PAR__<lowercased name> <i>` line per parameter,
where `<i>` is exactly that parameter's zero-based position in the input
sequence, and after all entries emits `#define GLUE_PARS <n>` with `<n>` the
exact length of the input sequence. -/
theorem glue_C1 (pars : List GluePar) :
    (emit_c_header_stanza_writes pars).length = pars.length + 2 ∧
    (∀ i (h : i < pars.length),
      (emit_c_header_stanza_writes pars)[1 + i]?
        = some ("#define GLUE_PAR__" ++ rust_to_lowercase (pars.get ⟨i, h⟩).name
                  ++ " " ++ toString i ++ "\n")) ∧
    (emit_c_header_stanza_writes pars)[1 + pars.length]?
      = some ("#define GLUE_PARS " ++ toString pars.length ++ "\n" ++ "\n") := by
  refine ⟨?_, ?_, ?_⟩
  · simp [emit_c_header_stanza_writes, stanza_body_writes_length]
  · intro i h
    have hlen : i < (stanza_body_writes 0 pars).length := by
      rw [stanza_body_writes_length]; exact h
    have hidx : (1 + i) = i + 1 := Nat.add_comm 1 i
    rw [hidx]
    simp only [emit_c_header_stanza_writes, List.getElem?_cons_succ]
    rw [List.getElem?_append_left hlen]
    simpa using stanza_body_writes_getElem pars 0 i h
  · have hidx : (1 + pars.length) = pars.length + 1 := Nat.add_comm 1 pars.length
    rw [hidx]
    simp only [emit_c_header_stanza_writes, List.getElem?_cons_succ]
    have hlen : (stanza_body_writes 0 pars).length = pars.length :=
      stanza_body_writes_length 0 pars
    rw [← hlen, List.getElem?_concat_length]

/-- Witness for C1, instantiated at the full registry and position 0. -/
theorem glue_C1_witness :
    (emit_c_header_stanza_writes GLUE_PARS)[1]? = some "#define GLUE_PAR__line_skip 0\n" ∧
    (emit_c_header_stanza_writes GLUE_PARS)[1 + GLUE_PARS.length]?
      = some "#define GLUE_PARS 19\n\n" := by
  constructor
  · rw [(glue_C1 GLUE_PARS).2.1 0 (by decide)]; rfl
  · rw [(glue_C1 GLUE_PARS).2.2]; rfl

/-- Claim C2: for every non-negative version `v`, `get_gluepars_for_version v`
is exactly the subsequence of registry descriptors with `since ≤ v`, in the
registry's declaration order; in particular `v = 0` returns all 19
descriptors in exact declaration order. -/
theorem glue_C2 :
    (∀ v : FormatVersion,
      get_gluepars_for_version v = GLUE_PARS.filter (fun p => decide (p.since ≤ v))) ∧
    get_gluepars_for_version 0 = GLUE_PARS ∧ GLUE_PARS.length = 19 :=
  ⟨get_for_version_eq_filter, get_for_version_eq_all 0, by decide⟩

/-- Claim C3: for all non-negative versions `v1 ≤ v2`, the result for `v1` is
a sublist of the result for `v2`: every descriptor of the smaller result
appears in the larger one and the shared relative order is preserved. -/
theorem glue_C3 (v1 v2 : FormatVersion) (h : v1 ≤ v2) :
    List.Sublist (get_gluepars_for_version v1) (get_gluepars_for_version v2) := by
  rw [get_for_version_eq_filter v1, get_for_version_eq_filter v2]
  refine List.monotone_filter_right GLUE_PARS ?_
  intro p hp
  simp only [decide_eq_true_eq] at hp ⊢
  exact Nat.le_trans hp h

/-- Witness for C3 at versions 0 and 5. -/
theorem glue_C3_witness :
    List.Sublist (get_gluepars_for_version 0) (get_gluepars_for_version 5) :=
  glue_C3 0 5 (by decide)

/-- Claim C4: the classification-to-tag mapping is total over the two-valued
enum — `Regular` yields `ASSIGN_GLUE` and `Math` yields `ASSIGN_MU_GLUE` —
and over the full 19-entry registry exactly the last three entries emit the
math tag while the remaining sixteen emit the regular tag. -/
theorem glue_C4 :
    gluepar_cmd GlueParKind.Regular = "ASSIGN_GLUE" ∧
    gluepar_cmd GlueParKind.Math = "ASSIGN_MU_GLUE" ∧
    GLUE_PARS.map (fun p => gluepar_cmd p.kind)
      = List.replicate 16 "ASSIGN_GLUE" ++ List.replicate 3 "ASSIGN_MU_GLUE" :=
  ⟨rfl, rfl, by decide⟩

/-- Claim C5: the two emissions normalize the same name differently: the
identifier block lowercases the name keeping underscores, while the
initializer literal strips underscores keeping case; the descriptor named
`XeTeX_linebreak_skip` yields identifier key `xetex_linebreak_skip` and
initializer literal `XeTeXlinebreakskip`. -/
theorem glue_C5 :
    rust_to_lowercase "XeTeX_linebreak_skip" = "xetex_linebreak_skip" ∧
    rust_strip_underscores "XeTeX_linebreak_skip" = "XeTeXlinebreakskip" ∧
    emit_c_header_stanza_writes [GluePar.mk "XeTeX_linebreak_skip" GlueParKind.Regular 0]
      = ["/* Glue (\x22skip\x22) parameters */\n\n",
         "#define GLUE_PAR__xetex_linebreak_skip 0\n",
         "#define GLUE_PARS 1\n\n"] ∧
    emit_c_header_primitives_writes [GluePar.mk "XeTeX_linebreak_skip" GlueParKind.Regular 0]
      = ["    \x7b \x22XeTeXlinebreakskip\x22, ASSIGN_GLUE, GLUE_BASE + GLUE_PAR__xetex_linebreak_skip, xf_prim_init_none \x7d, \\\n"] := by
  refine ⟨by decide, by decide, ?_, ?_⟩ <;> decide

/-- Claim C6: for every version at least the maximum `since` value present in
the registry (here 0), `get_gluepars_for_version` returns element-for-element
the same sequence as `get_latest_gluepars`. -/
theorem glue_C6 (v : FormatVersion) (_h : max_known_since ≤ v) :
    get_gluepars_for_version v = get_latest_gluepars :=
  (get_for_version_eq_all v).trans rfl

/-- Witness for C6 at version `max_known_since` itself. -/
theorem glue_C6_witness :
    get_gluepars_for_version max_known_since = get_latest_gluepars :=
  glue_C6 max_known_since (Nat.le_refl _)

/-- Claim C7: in the full 19-entry registry the descriptor names are pairwise
distinct. -/
theorem glue_C7 : (GLUE_PARS.map (fun p => p.name)).Nodup := by decide

/-- Appending the empty string on the right changes nothing. -/
lemma string_append_empty (s : String) : s ++ "" = s := by
  apply String.ext
  rw [String.data_append]
  simp [show ("" : String).data = [] from rfl]

/-- Claim C8: the only failure mode of the emission routines is a failure of
the caller-supplied sink, propagated unchanged, with the output already
written before the failing write kept; and the query operations are total
pure filters of the registry, failing for no version. -/
theorem glue_C8 :
    (∀ (ε : Type) (pars : List GluePar) (sink : Sink ε),
      (∀ i, sink.accepts i = true) →
      emit_c_header_stanza_run ε pars sink
          = (emit_c_header_stanza_output pars, Except.ok ()) ∧
      emit_c_header_primitives_run ε pars sink
          = (emit_c_header_primitives_output pars, Except.ok ())) ∧
    (∀ (ε : Type) (pars : List GluePar) (sink : Sink ε) (i : Nat),
      (∀ j, j < i → sink.accepts j = true) →
      sink.accepts i = false →
      (i < (emit_c_header_stanza_writes pars).length →
        emit_c_header_stanza_run ε pars sink
          = (concat_writes ((emit_c_header_stanza_writes pars).take i),
             Except.error (sink.err i))) ∧
      (i < (emit_c_header_primitives_writes pars).length →
        emit_c_header_primitives_run ε pars sink
          = (concat_writes ((emit_c_header_primitives_writes pars).take i),
             Except.error (sink.err i)))) ∧
    (∀ v : FormatVersion, List.Sublist (get_gluepars_for_version v) GLUE_PARS) := by
  refine ⟨?_, ?_, ?_⟩
  · intro ε pars sink hall
    constructor
    · exact runWrites_all_ok sink (emit_c_header_stanza_writes pars) 0
        (fun j _ => hall (0 + j))
    · exact runWrites_all_ok sink (emit_c_header_primitives_writes pars) 0
        (fun j _ => hall (0 + j))
  · intro ε pars sink i hpre hfail
    constructor
    · intro hlen
      have h := runWrites_first_err sink (emit_c_header_stanza_writes pars) 0 i hlen
        (fun j hj => by simpa using hpre j hj) (by simpa using hfail)
      simpa using h
    · intro hlen
      have h := runWrites_first_err sink (emit_c_header_primitives_writes pars) 0 i hlen
        (fun j hj => by simpa using hpre j hj) (by simpa using hfail)
      simpa using h
  · intro v
    rw [get_for_version_eq_all v]

/-- Witness for C8: an always-accepting sink succeeds on the empty input, a
sink failing at the first write yields that sink's error with nothing
written, and version 3 is a valid query. -/
theorem glue_C8_witness :
    emit_c_header_stanza_run Nat [] (Sink.mk (fun _ => true) (fun i => i))
      = (emit_c_header_stanza_output [], Except.ok ()) ∧
    emit_c_header_stanza_run Nat [] (Sink.mk (fun _ => false) (fun i => i))
      = (concat_writes ((emit_c_header_stanza_writes []).take 0), Except.error 0) ∧
    List.Sublist (get_gluepars_for_version 3) GLUE_PARS :=
  ⟨(glue_C8.1 Nat [] ⟨fun _ => true, fun i => i⟩ (fun _ => rfl)).1,
   (glue_C8.2.1 Nat [] ⟨fun _ => false, fun i => i⟩ 0
      (fun j hj => absurd hj (Nat.not_lt_zero j)) rfl).1 (by decide),
   glue_C8.2.2 3⟩

/-- Claim C9: for every input, the stanza text starts with the fixed comment
line followed by a blank line, then come the define lines (every body write
is a `#define GLUE_PAR__` line), and the closing count line is followed by a
trailing blank line. -/
theorem glue_C9 (pars : List GluePar) :
    emit_c_header_stanza_output pars
      = "/* Glue (\x22skip\x22) parameters */\n" ++ "\n"
          ++ (concat_writes (stanza_body_writes 0 pars)
              ++ ("#define GLUE_PARS " ++ toString pars.length ++ "\n" ++ "\n")) ∧
    (∀ w ∈ stanza_body_writes 0 pars, ∃ rest, w = "#define GLUE_PAR__" ++ rest) := by
  constructor
  · show concat_writes (_ :: (stanza_body_writes 0 pars ++ [_])) = _
    rw [concat_writes, concat_writes_append]
    have hsingle : ∀ w : String, concat_writes [w] = w := by
      intro w
      show w ++ "" = w
      exact string_append_empty w
    rw [hsingle, String.append_assoc]
  · intro w hw
    exact stanza_body_writes_shape pars 0 w hw

/-- The per-parameter loop of `emit_c_header_primitives` distributes over
concatenation of inputs. -/
lemma primitives_writes_append (xs ys : List GluePar) :
    emit_c_header_primitives_writes (xs ++ ys)
      = emit_c_header_primitives_writes xs ++ emit_c_header_primitives_writes ys := by
  induction xs with
  | nil => simp [emit_c_header_primitives_writes]
  | cons p t ih => simp [emit_c_header_primitives_writes, ih]

/-- Claim C10: `emit_c_header_primitives` is a per-parameter homomorphism:
each parameter contributes exactly one record line depending only on its own
name and kind, so the output for `xs ++ ys` is the output for `xs` followed
by the output for `ys`. -/
theorem glue_C10 (xs ys : List GluePar) :
    emit_c_header_primitives_writes (xs ++ ys)
      = emit_c_header_primitives_writes xs ++ emit_c_header_primitives_writes ys ∧
    emit_c_header_primitives_output (xs ++ ys)
      = emit_c_header_primitives_output xs ++ emit_c_header_primitives_output ys ∧
    (∀ par : GluePar,
      emit_c_header_primitives_writes [par]
        = ["    \x7b \x22" ++ rust_strip_underscores par.name ++ "\x22, "
              ++ gluepar_cmd par.kind
              ++ ", GLUE_BASE + GLUE_PAR__" ++ rust_to_lowercase par.name
              ++ ", xf_prim_init_none \x7d, \\" ++ "\n"]) := by
  refine ⟨primitives_writes_append xs ys, ?_, fun par => rfl⟩
  show concat_writes (emit_c_header_primitives_writes (xs ++ ys)) = _
  rw [primitives_writes_append, concat_writes_append]
  rfl
